import Mathlib

/-!
Verification development for the izod_mini touch-wheel sensing pipeline.

The definitions below are shallow embeddings of the C++ sources:
- `src/firmware/src/touch/sensitivity_manager.cpp` (sensitivity profile manager),
- `src/firmware/src/touch/touch_calibration.cpp` (calibration engine, auto-tuner),
- `src/firmware/src/touch_wheel.cpp` (position estimator, activity gate,
  step accumulator, step-delta drain).

Machine integers are modelled as `Nat`/`Int` with explicit `% 2^w` where the C
code truncates; `float` arithmetic is modelled exactly over `ℚ` (and over `ℝ`
for the trigonometric vector sum). Hardware and NVS side effects are modelled
by explicit state passing; `Serial` logging is dropped.
-/

namespace Izod

/-! ## Sensitivity profile manager (`sensitivity_manager.cpp`, `touch_config.h`) -/

/-- TOUCH_ELECTRODE_COUNT from `touch_config.h`. -/
def TOUCH_ELECTRODE_COUNT : ℕ := 12

/-- TOUCH_SMALL_PAD_ELECTRODE from `touch_config.h` (0-based index of the small pad). -/
def TOUCH_SMALL_PAD_ELECTRODE : ℕ := 11

/-- The `touch_sensitivity_config_t` struct from `touch_config.h`. -/
structure TouchSensitivityConfig where
  global_level : ℕ
  touch_threshold : Fin 12 → ℕ
  release_threshold : Fin 12 → ℕ
  custom_per_pad : Bool
  small_pad_compensation : Bool
  debounce_count : ℕ
  filter_config : ℕ
  auto_calibration : Bool
  calibration_interval_ms : ℕ
deriving DecidableEq

/-- The `sensitivity_levels` table: `TOUCH_THRESHOLDS_LEVEL_1 .. _5`
as (touch_threshold, release_threshold) rows. -/
def sensitivity_levels : Fin 5 → ℕ × ℕ := ![(15, 10), (12, 8), (8, 4), (6, 3), (4, 2)]

/-- The `small_pad_levels` table: `TOUCH_SMALL_PAD_THRESHOLDS_LEVEL_1 .. _5`. -/
def small_pad_levels : Fin 5 → ℕ × ℕ := ![(12, 8), (10, 6), (6, 3), (4, 2), (3, 1)]

/-- `touch_config_set_sensitivity_level` from `sensitivity_manager.cpp` lines 72-94.
Returns the C `bool` result together with the updated configuration. -/
def touch_config_set_sensitivity_level (config : TouchSensitivityConfig) (level : ℕ) :
    Bool × TouchSensitivityConfig :=
  if h : 1 ≤ level ∧ level ≤ 5 then
    let level_index : Fin 5 := ⟨level - 1, by omega⟩
    (true,
      { config with
        global_level := level
        touch_threshold := fun i =>
          if i.val = TOUCH_SMALL_PAD_ELECTRODE ∧ config.small_pad_compensation then
            (small_pad_levels level_index).1
          else
            (sensitivity_levels level_index).1
        release_threshold := fun i =>
          if i.val = TOUCH_SMALL_PAD_ELECTRODE ∧ config.small_pad_compensation then
            (small_pad_levels level_index).2
          else
            (sensitivity_levels level_index).2 })
  else
    (false, config)

/-- `touch_config_set_electrode_threshold` from `sensitivity_manager.cpp` lines 101-120.
Returns the C `bool` result together with the updated configuration. -/
def touch_config_set_electrode_threshold (config : TouchSensitivityConfig)
    (electrode touch_threshold release_threshold : ℕ) : Bool × TouchSensitivityConfig :=
  if h : electrode < TOUCH_ELECTRODE_COUNT then
    if touch_threshold = 0 ∨ release_threshold = 0 ∨ touch_threshold ≤ release_threshold then
      (false, config)
    else
      (true,
        { config with
          touch_threshold :=
            Function.update config.touch_threshold ⟨electrode, h⟩ touch_threshold
          release_threshold :=
            Function.update config.release_threshold ⟨electrode, h⟩ release_threshold
          custom_per_pad := true })
  else
    (false, config)

/-- `touch_config_validate` from `sensitivity_manager.cpp` lines 136-155. -/
def touch_config_validate (config : TouchSensitivityConfig) : Bool :=
  decide (1 ≤ config.global_level ∧ config.global_level ≤ 5) &&
  decide (∀ i : Fin 12,
    config.touch_threshold i ≠ 0 ∧ config.release_threshold i ≠ 0 ∧
    ¬(config.touch_threshold i ≤ config.release_threshold i))

/-- `touch_config_init_defaults` from `sensitivity_manager.cpp` lines 56-70:
sets the scalar fields to factory values and then derives all thresholds
through `touch_config_set_sensitivity_level` at the default level 3. -/
def touch_config_init_defaults (config : TouchSensitivityConfig) : TouchSensitivityConfig :=
  let c : TouchSensitivityConfig :=
    { config with
      global_level := 3
      custom_per_pad := false
      small_pad_compensation := true
      debounce_count := 2
      filter_config := 4
      auto_calibration := true
      calibration_interval_ms := 30000 }
  (touch_config_set_sensitivity_level c c.global_level).2

/-- Model of the NVS `Preferences` namespace content for `touch_config`:
each stored key may be present or absent (`getUChar`/`getBool`/`getULong`
return the caller-supplied fallback when the key is absent). The whole store
is wrapped in `Option` by the caller: `none` models `g_preferences.begin`
failing (namespace unavailable). -/
structure StoredPrefs where
  global_level : Option ℕ
  custom_per_pad : Option Bool
  small_pad_comp : Option Bool
  debounce_count : Option ℕ
  filter_config : Option ℕ
  auto_cal : Option Bool
  cal_interval : Option ℕ
  touch_th : Fin 12 → Option ℕ
  release_th : Fin 12 → Option ℕ

/-- `touch_config_load_from_nvs` from `sensitivity_manager.cpp` lines 157-196.
`store = none` models `g_preferences.begin("touch_config", true)` returning
false: the function returns false without touching `config`. Otherwise every
field is read with its per-key fallback, the result is validated, and an
invalid record is replaced by `touch_config_init_defaults` with a false
return. `nvs_loaded_config` is the record as read field by field with the
per-key fallbacks of lines 166-182. -/
def nvs_loaded_config (p : StoredPrefs) : TouchSensitivityConfig :=
  { global_level := p.global_level.getD 3
    touch_threshold := fun i => (p.touch_th i).getD 8
    release_threshold := fun i => (p.release_th i).getD 4
    custom_per_pad := p.custom_per_pad.getD false
    small_pad_compensation := p.small_pad_comp.getD true
    debounce_count := p.debounce_count.getD 2
    filter_config := p.filter_config.getD 4
    auto_calibration := p.auto_cal.getD true
    calibration_interval_ms := p.cal_interval.getD 30000 }

def touch_config_load_from_nvs (store : Option StoredPrefs)
    (config : TouchSensitivityConfig) : Bool × TouchSensitivityConfig :=
  match store with
  | none => (false, config)
  | some p =>
    let loaded := nvs_loaded_config p
    if touch_config_validate loaded then (true, loaded)
    else (false, touch_config_init_defaults loaded)

/-! ## Calibration engine (`touch_calibration.cpp`) -/

/-- The `touch_calibration_data_t` struct from `touch_config.h`. -/
structure TouchCalibrationData where
  baseline : Fin 12 → ℕ
  filtered_data : Fin 12 → ℕ
  touch_delta : Fin 12 → ℕ
  electrode_enabled : Fin 12 → Bool
  last_calibration_time : ℕ
  calibration_needed : Bool
deriving DecidableEq

/-- `touch_calibration_get_electrode_delta` (`touch_calibration.cpp` lines 236-239). -/
def touch_calibration_get_electrode_delta (d : TouchCalibrationData) (electrode : ℕ) : ℕ :=
  if h : electrode < TOUCH_ELECTRODE_COUNT then d.touch_delta ⟨electrode, h⟩ else 0

/-- `touch_calibration_get_electrode_baseline` (`touch_calibration.cpp` lines 241-244). -/
def touch_calibration_get_electrode_baseline (d : TouchCalibrationData) (electrode : ℕ) : ℕ :=
  if h : electrode < TOUCH_ELECTRODE_COUNT then d.baseline ⟨electrode, h⟩ else 0

/-- `touch_calibration_get_electrode_filtered` (`touch_calibration.cpp` lines 246-249). -/
def touch_calibration_get_electrode_filtered (d : TouchCalibrationData) (electrode : ℕ) : ℕ :=
  if h : electrode < TOUCH_ELECTRODE_COUNT then d.filtered_data ⟨electrode, h⟩ else 0

/-- `touch_calibration_is_electrode_enabled` (`touch_calibration.cpp` lines 251-254). -/
def touch_calibration_is_electrode_enabled (d : TouchCalibrationData) (electrode : ℕ) : Bool :=
  if h : electrode < TOUCH_ELECTRODE_COUNT then d.electrode_enabled ⟨electrode, h⟩ else false

/-- `touch_calibration_is_electrode_touched` (`touch_calibration.cpp` lines 222-234). -/
def touch_calibration_is_electrode_touched (d : TouchCalibrationData)
    (config : TouchSensitivityConfig) (electrode : ℕ) : Bool :=
  if h : electrode < TOUCH_ELECTRODE_COUNT then
    if d.electrode_enabled ⟨electrode, h⟩ then
      decide (config.touch_threshold ⟨electrode, h⟩ ≤ d.touch_delta ⟨electrode, h⟩)
    else false
  else false

/-- `touch_calibration_enable_electrode` (`touch_calibration.cpp` lines 256-268):
out-of-range indices return without modifying anything; enabling an electrode
also raises `calibration_needed`. -/
def touch_calibration_enable_electrode (d : TouchCalibrationData)
    (electrode : ℕ) (enable : Bool) : TouchCalibrationData :=
  if h : electrode < TOUCH_ELECTRODE_COUNT then
    let upd := Function.update d.electrode_enabled ⟨electrode, h⟩ enable
    let d1 := { d with electrode_enabled := upd }
    if enable then { d1 with calibration_needed := true } else d1
  else d

/-! ## Auto-tuner (`touch_calibration_auto_tune_sensitivity`, lines 311-360) -/

/-- Reinterpretation of a `uint16_t` value as `int16_t` (the C casts
`(int16_t)baseline` and `(int16_t)filtered`). -/
def toInt16 (x : ℕ) : ℤ := ((x : ℤ) + 2 ^ 15) % 2 ^ 16 - 2 ^ 15

/-- `noise_level = abs((int16_t)baseline - (int16_t)filtered)` from line 328. -/
def noise_level_of (baseline filtered : ℕ) : ℕ := (toInt16 baseline - toInt16 filtered).natAbs

/-- The Arduino `constrain(amt, low, high)` macro. -/
def constrain (x lo hi : ℕ) : ℕ := if x < lo then lo else if hi < x then hi else x

/-- Lines 331 and 335: `uint8_t recommended_touch_threshold = noise_level * 2 + 5`
(the assignment to `uint8_t` truncates mod 256) then `constrain(.., 3, 30)`. -/
def recommended_touch_of (noise : ℕ) : ℕ := constrain ((noise * 2 + 5) % 256) 3 30

/-- Lines 332 and 336: `uint8_t recommended_release_threshold = noise_level + 2`
(truncated mod 256) then `constrain(.., 1, 15)`. -/
def recommended_release_of (noise : ℕ) : ℕ := constrain ((noise + 2) % 256) 1 15

/-- One iteration of the electrode loop of `touch_calibration_auto_tune_sensitivity`
(lines 323-348). The state is the configuration plus the `changes_made` flag. -/
def auto_tune_step (cal : TouchCalibrationData)
    (st : TouchSensitivityConfig × Bool) (i : Fin 12) : TouchSensitivityConfig × Bool :=
  if cal.electrode_enabled i then
    if 2 < ((st.1.touch_threshold i : ℤ) -
        (recommended_touch_of (noise_level_of (cal.baseline i) (cal.filtered_data i)) : ℤ)).natAbs then
      ({ st.1 with
          touch_threshold := Function.update st.1.touch_threshold i
            (recommended_touch_of (noise_level_of (cal.baseline i) (cal.filtered_data i)))
          release_threshold := Function.update st.1.release_threshold i
            (recommended_release_of (noise_level_of (cal.baseline i) (cal.filtered_data i))) }, true)
    else st
  else st

/-- `touch_calibration_auto_tune_sensitivity` (lines 311-360), restricted to its
pure effect on the configuration: the electrode loop over indices 0..11.
Returns the updated configuration and the `changes_made` flag (the hardware
apply and NVS save that `changes_made` triggers are external effects). -/
def touch_calibration_auto_tune_sensitivity (config : TouchSensitivityConfig)
    (cal : TouchCalibrationData) : TouchSensitivityConfig × Bool :=
  (List.finRange 12).foldl (auto_tune_step cal) (config, false)

/-! ## Touch wheel poll loop (`touch_wheel.cpp`)

The poll task `touchTask` is decomposed into its stages: per-electrode
strength computation and vector-sum position estimate (lines 50-91), the
activity gate (lines 93-105), the fractional step accumulator (lines
107-123), and the externally drained step counter (lines 172-176).
Float arithmetic is modelled exactly: over `ℚ` where only field operations
and comparisons occur, over `ℝ` for `cosf`/`sinf`/`atan2f`. -/

/-- `s_orderCount` with its default value: 12 electrodes used as a ring. -/
def kElectrodes : ℕ := 12

/-- One frame of MPR121 readings, indexed by electrode number:
`filteredData`, `baselineData` (both `uint16_t`) and the touched bitmask
condensed to the flag `curTouched != 0`. -/
structure Frame where
  baselineData : Fin 12 → ℕ
  filteredData : Fin 12 → ℕ
  anyTouched : Bool

/-- Lines 58-59: `strength = (float)((int)baseline - (int)filtered)`, then
`if (strength < kStrengthMin) strength = 0.0f` with `kStrengthMin = 0.5f`. -/
def strengthOf (baseline filtered : ℕ) : ℚ :=
  let s : ℚ := ((baseline : ℤ) - (filtered : ℤ) : ℤ)
  if s < 1 / 2 then 0 else s

/-- The strength seen at loop index `i` of the estimator loop: electrode
`e = s_order[i]` read through the order map (line 55). -/
def slotStrength (fr : Frame) (ord : Fin 12 → Fin 12) (i : Fin 12) : ℚ :=
  strengthOf (fr.baselineData (ord i)) (fr.filteredData (ord i))

/-- `totalMag` accumulated by the loop of lines 54-67: each loop index
contributes its strength when `strength > 0.0f`. -/
def totalMag (fr : Frame) (ord : Fin 12 → Fin 12) : ℚ :=
  ∑ i : Fin 12, if 0 < slotStrength fr ord i then slotStrength fr ord i else 0

/-- `maxStrength` tracked by the same loop (line 65): the running maximum
starting from `0.0f`. -/
def maxStrengthOf (fr : Frame) (ord : Fin 12 → Fin 12) : ℚ :=
  (List.finRange 12).foldl (fun m i =>
    if 0 < slotStrength fr ord i ∧ m < slotStrength fr ord i then slotStrength fr ord i
    else m) 0

/-- `sumX` of lines 54-67: `cosf(2*pi*i/orderCount) * strength` summed over the
loop indices with positive strength. -/
noncomputable def sumX (fr : Frame) (ord : Fin 12 → Fin 12) : ℝ :=
  ∑ i : Fin 12, if 0 < slotStrength fr ord i then
    Real.cos (2 * Real.pi * i / 12) * (slotStrength fr ord i : ℝ) else 0

/-- `sumY` of lines 54-67. -/
noncomputable def sumY (fr : Frame) (ord : Fin 12 → Fin 12) : ℝ :=
  ∑ i : Fin 12, if 0 < slotStrength fr ord i then
    Real.sin (2 * Real.pi * i / 12) * (slotStrength fr ord i : ℝ) else 0

/-- The fallback strength of lines 69-82: `fmaxf(0.0f, kFilteredMax - filtered)`
with `kFilteredMax = 32.0f`, read directly from the electrode (no baseline). -/
def fbStrength (fr : Frame) (ord : Fin 12 → Fin 12) (i : Fin 12) : ℚ :=
  max 0 (32 - (fr.filteredData (ord i) : ℚ))

/-- Fallback `totalMag`: contributions are only taken when `strength > 1.0f`. -/
def fbTotalMag (fr : Frame) (ord : Fin 12 → Fin 12) : ℚ :=
  ∑ i : Fin 12, if 1 < fbStrength fr ord i then fbStrength fr ord i else 0

/-- Fallback `sumX`. -/
noncomputable def fbSumX (fr : Frame) (ord : Fin 12 → Fin 12) : ℝ :=
  ∑ i : Fin 12, if 1 < fbStrength fr ord i then
    Real.cos (2 * Real.pi * i / 12) * (fbStrength fr ord i : ℝ) else 0

/-- Fallback `sumY`. -/
noncomputable def fbSumY (fr : Frame) (ord : Fin 12 → Fin 12) : ℝ :=
  ∑ i : Fin 12, if 1 < fbStrength fr ord i then
    Real.sin (2 * Real.pi * i / 12) * (fbStrength fr ord i : ℝ) else 0

/-- `atan2f(y, x)`: the argument of the complex number `x + y i`, with the C
convention `atan2(0, 0) = 0` (matched by `Complex.arg 0 = 0`). -/
noncomputable def atan2 (y x : ℝ) : ℝ := Complex.arg (Complex.mk x y)

/-- Lines 85-89: normalize `atan2` from `-pi..pi` into `0..2pi` and map to
`[0..orderCount)` position space. -/
noncomputable def positionOfSums (sx sy : ℝ) : ℝ :=
  (if atan2 sy sx < 0 then atan2 sy sx + 2 * Real.pi else atan2 sy sx) * 12 / (2 * Real.pi)

/-- The estimator of lines 50-91 as a whole: `activePos` is set (`some`) only
when a pass ends with `totalMag > 0.0f`; the fallback pass runs only when the
baseline pass accumulated nothing. -/
noncomputable def estimatePosition (fr : Frame) (ord : Fin 12 → Fin 12) : Option ℝ :=
  if 0 < totalMag fr ord then some (positionOfSums (sumX fr ord) (sumY fr ord))
  else if 0 < fbTotalMag fr ord then some (positionOfSums (fbSumX fr ord) (fbSumY fr ord))
  else none

/-! ### Activity gate (lines 93-105) -/

/-- The gate state: `s_isActive`, `s_activeFrames`, `s_quietFrames`. -/
structure GateState where
  isActive : Bool
  activeFrames : ℕ
  quietFrames : ℕ
deriving DecidableEq

/-- Initial gate state from the static initializers of `touch_wheel.cpp`. -/
def gateInit : GateState := ⟨false, 0, 0⟩

/-- Line 99: `proposedActive = touchedBits || (maxStrength >= 10.0f)`. -/
def proposedActive (touchedBits : Bool) (maxStrength : ℚ) : Bool :=
  touchedBits || decide (10 ≤ maxStrength)

/-- Lines 100-103: streak bookkeeping followed by the two debounce writes to
`s_isActive` (the second `if` reads the value written by the first). -/
def gateStep (s : GateState) (q : Bool) : GateState :=
  let a := if q then s.activeFrames + 1 else 0
  let t := if q then 0 else s.quietFrames + 1
  let act1 := if ¬s.isActive ∧ 2 ≤ a then true else s.isActive
  let act2 := if act1 ∧ 3 ≤ t then false else act1
  ⟨act2, a, t⟩

/-- A polled frame as seen by the gate: the touched flag and the frame's
`maxStrength`. -/
def gateFrameStep (s : GateState) (f : Bool × ℚ) : GateState :=
  gateStep s (proposedActive f.1 f.2)

/-- Iterating the gate over a sequence of polled frames. -/
def runGate (s : GateState) (fs : List (Bool × ℚ)) : GateState :=
  fs.foldl gateFrameStep s

/-- No two adjacent `true` entries in a list of qualification flags. -/
def noTwoConsec : List Bool → Bool
  | [] => true
  | [_] => true
  | a :: b :: r => (!(a && b)) && noTwoConsec (b :: r)

/-! ### Step accumulator (lines 107-123) -/

/-- Line 117: `while (s_fracMove >= 0.5f) { s_accumDelta += 1; s_fracMove -= 1.0f; }`.
Returns the number of emitted steps and the remaining accumulator. -/
def emitPos (f : ℚ) : ℤ × ℚ :=
  if h : 1 / 2 ≤ f then
    let r := emitPos (f - 1)
    (r.1 + 1, r.2)
  else (0, f)
termination_by (⌈f⌉).toNat
decreasing_by
  have h1 : (1 : ℤ) ≤ ⌈f⌉ := Int.ceil_pos.mpr (by linarith)
  have h2 : ⌈f - 1⌉ = ⌈f⌉ - 1 := Int.ceil_sub_one f
  omega

/-- Line 118: `while (s_fracMove <= -0.5f) { s_accumDelta -= 1; s_fracMove += 1.0f; }`. -/
def emitNeg (f : ℚ) : ℤ × ℚ :=
  if h : f ≤ -(1 / 2) then
    let r := emitNeg (f + 1)
    (r.1 - 1, r.2)
  else (0, f)
termination_by (⌈-f⌉).toNat
decreasing_by
  have h1 : (1 : ℤ) ≤ ⌈-f⌉ := Int.ceil_pos.mpr (by linarith)
  have h2 : ⌈-(f + 1)⌉ = ⌈-f⌉ - 1 := by
    rw [show -(f + 1) = -f - 1 by ring]
    exact Int.ceil_sub_one (-f)
  omega

/-- Lines 110-113: position delta with circular wrap correction
(`s_orderCount/2.0f = 6`), the two `if`s applied in source order. -/
def wrapDiff (p q : ℚ) : ℚ :=
  let d := p - q
  let d1 := if 6 < d then d - 12 else d
  if d1 < -6 then d1 + 12 else d1

/-- Line 114: direction inversion applied to the wrapped diff. -/
def sessionDiff (invert : Bool) (p q : ℚ) : ℚ :=
  if invert then -(wrapDiff p q) else wrapDiff p q

/-- The accumulator state while a session is active: `lastPos` (defined),
`s_fracMove`, and the running `s_accumDelta` contribution. -/
structure MotionState where
  lastPos : ℚ
  frac : ℚ
  accum : ℤ
deriving DecidableEq

/-- Lines 108-122 for one in-session frame with position `p`: wrap-corrected
(and possibly inverted) diff, fractional accumulation, both emit loops, and
the `lastPos` update. -/
def processPos (invert : Bool) (st : MotionState) (p : ℚ) : MotionState :=
  let d := sessionDiff invert p st.lastPos
  let f := st.frac + d
  let r1 := emitPos f
  let r2 := emitNeg r1.2
  ⟨p, r2.2, st.accum + r1.1 + r2.1⟩

/-- Feeding a whole sequence of in-session positions to the accumulator. -/
def runSession (invert : Bool) (st : MotionState) (ps : List ℚ) : MotionState :=
  ps.foldl (processPos invert) st

/-- The wrap-corrected, possibly inverted diffs of a session that starts at
position `q0` and then visits `ps` in order. -/
def sessionDiffs (invert : Bool) (q0 : ℚ) : List ℚ → List ℚ
  | [] => []
  | p :: rest => sessionDiff invert p q0 :: sessionDiffs invert p rest

/-! ### Step counter drain (lines 172-176) -/

/-- `touchWheelGetAndClearDelta`: reads `s_accumDelta` and resets it to zero,
returning (read value, new counter). -/
def touchWheelGetAndClearDelta (accumDelta : ℤ) : ℤ × ℤ := (accumDelta, 0)

/-- Interaction history on the shared step counter: the poll task adds
`stepDelta` increments, the UI task drains. -/
inductive WheelEvent
  | tick (d : ℤ)
  | drain

/-- Running a history against the counter, tracking the counter value and the
total of all drained values. -/
def runEvents (accum : ℤ) : List WheelEvent → ℤ × ℤ
  | [] => (accum, 0)
  | WheelEvent.tick d :: rest => runEvents (accum + d) rest
  | WheelEvent.drain :: rest =>
    let r := touchWheelGetAndClearDelta accum
    let rec' := runEvents r.2 rest
    (rec'.1, r.1 + rec'.2)

/-- The sum of all `tick` increments of a history. -/
def ticksTotal : List WheelEvent → ℤ
  | [] => 0
  | WheelEvent.tick d :: rest => d + ticksTotal rest
  | WheelEvent.drain :: rest => ticksTotal rest

/-! ## Shared concrete sample data for witnesses and counterexamples -/

/-- A valid level-3 configuration (the factory default values). -/
def sampleConfig : TouchSensitivityConfig :=
  { global_level := 3
    touch_threshold := fun i => if i.val = 11 then 6 else 8
    release_threshold := fun i => if i.val = 11 then 3 else 4
    custom_per_pad := false
    small_pad_compensation := true
    debounce_count := 2
    filter_config := 4
    auto_calibration := true
    calibration_interval_ms := 30000 }

/-- A sample calibration state with all electrodes enabled. -/
def sampleCal : TouchCalibrationData :=
  { baseline := fun _ => 200
    filtered_data := fun _ => 200
    touch_delta := fun _ => 0
    electrode_enabled := fun _ => true
    last_calibration_time := 0
    calibration_needed := false }

/-! ## C6: rejected electrode overrides leave the profile untouched -/

/-- C6: every call of `touch_config_set_electrode_threshold` with
`touch_threshold ≤ release_threshold`, or a zero touch threshold, or a zero
release threshold, returns failure and leaves the whole configuration exactly
as it was; and every successful call sets `custom_per_pad` to true. -/
theorem c6_electrode_override_rejection :
    (∀ (config : TouchSensitivityConfig) (e t r : ℕ),
      (t ≤ r ∨ t = 0 ∨ r = 0) →
      touch_config_set_electrode_threshold config e t r = (false, config)) ∧
    (∀ (config config' : TouchSensitivityConfig) (e t r : ℕ),
      touch_config_set_electrode_threshold config e t r = (true, config') →
      config'.custom_per_pad = true) := by
  constructor
  · intro config e t r hrej
    unfold touch_config_set_electrode_threshold
    split
    · rw [if_pos (by tauto)]
    · rfl
  · intro config config' e t r h
    unfold touch_config_set_electrode_threshold at h
    split at h
    · split at h
      · exact absurd (congrArg Prod.fst h) (by simp)
      · have h2 := congrArg Prod.snd h
        simp only at h2
        rw [← h2]
    · exact absurd (congrArg Prod.fst h) (by simp)

/-- Witness for C6 at a concrete rejected call (touch 4 ≤ release 8) and a
concrete accepted call (touch 20 > release 10). -/
theorem c6_electrode_override_rejection_witness :
    touch_config_set_electrode_threshold sampleConfig 0 4 8 = (false, sampleConfig) ∧
    (touch_config_set_electrode_threshold sampleConfig 0 20 10).2.custom_per_pad = true := by
  refine ⟨c6_electrode_override_rejection.1 sampleConfig 0 4 8 (Or.inl (by decide)), ?_⟩
  exact c6_electrode_override_rejection.2 sampleConfig _ 0 20 10 (by decide)

/-! ## C10: per-electrode calibration API is total over out-of-range indices -/

/-- C10: for any electrode index at or above `TOUCH_ELECTRODE_COUNT`, the
delta/baseline/filtered getters return 0, the enabled and touched tests
return false, and enable/disable is the identity on the calibration state. -/
theorem c10_out_of_range_accessors_total :
    ∀ (d : TouchCalibrationData) (config : TouchSensitivityConfig) (e : ℕ),
      TOUCH_ELECTRODE_COUNT ≤ e →
      touch_calibration_get_electrode_delta d e = 0 ∧
      touch_calibration_get_electrode_baseline d e = 0 ∧
      touch_calibration_get_electrode_filtered d e = 0 ∧
      touch_calibration_is_electrode_enabled d e = false ∧
      touch_calibration_is_electrode_touched d config e = false ∧
      (∀ en : Bool, touch_calibration_enable_electrode d e en = d) := by
  intro d config e he
  have hlt : ¬ e < TOUCH_ELECTRODE_COUNT := by omega
  refine ⟨?_, ?_, ?_, ?_, ?_, ?_⟩
  · exact dif_neg hlt
  · exact dif_neg hlt
  · exact dif_neg hlt
  · exact dif_neg hlt
  · exact dif_neg hlt
  · intro en; exact dif_neg hlt

/-- Witness for C10 at the first out-of-range index 12. -/
theorem c10_out_of_range_accessors_total_witness :
    touch_calibration_get_electrode_delta sampleCal 12 = 0 ∧
    touch_calibration_get_electrode_baseline sampleCal 12 = 0 ∧
    touch_calibration_get_electrode_filtered sampleCal 12 = 0 ∧
    touch_calibration_is_electrode_enabled sampleCal 12 = false ∧
    touch_calibration_is_electrode_touched sampleCal sampleConfig 12 = false ∧
    (∀ en : Bool, touch_calibration_enable_electrode sampleCal 12 en = sampleCal) :=
  c10_out_of_range_accessors_total sampleCal sampleConfig 12 (by decide)

/-! ## C8: draining the pending step counter -/

/-- Helper: splitting an event history. -/
theorem runEvents_append (l1 l2 : List WheelEvent) : ∀ a : ℤ,
    runEvents a (l1 ++ l2) =
      ((runEvents (runEvents a l1).1 l2).1,
       (runEvents a l1).2 + (runEvents (runEvents a l1).1 l2).2) := by
  induction l1 with
  | nil => intro a; simp [runEvents]
  | cons e rest ih =>
    intro a
    cases e with
    | tick d => simp [runEvents, ih]
    | drain => simp [runEvents, touchWheelGetAndClearDelta, ih, add_assoc]

/-- C8: `touchWheelGetAndClearDelta` returns exactly the counter value and
resets the counter to zero; a second consecutive drain returns 0; and over any
interleaving of poll-side accumulation ticks and drains, the drained total
plus the residual counter equals the starting value plus everything ever
accumulated, so a history that ends in a drain has drained exactly the total
accumulated. -/
theorem c8_drain_read_and_clear :
    (∀ a : ℤ, touchWheelGetAndClearDelta a = (a, 0)) ∧
    (∀ a : ℤ, (touchWheelGetAndClearDelta (touchWheelGetAndClearDelta a).2).1 = 0) ∧
    (∀ (a0 : ℤ) (evs : List WheelEvent),
      (runEvents a0 evs).2 + (runEvents a0 evs).1 = a0 + ticksTotal evs) ∧
    (∀ evs : List WheelEvent,
      (runEvents 0 (evs ++ [WheelEvent.drain])).2 = ticksTotal evs) := by
  have key : ∀ (evs : List WheelEvent) (a0 : ℤ),
      (runEvents a0 evs).2 + (runEvents a0 evs).1 = a0 + ticksTotal evs := by
    intro evs
    induction evs with
    | nil => intro a0; simp [runEvents, ticksTotal]
    | cons e rest ih =>
      intro a0
      cases e with
      | tick d =>
        have := ih (a0 + d)
        simp only [runEvents, ticksTotal]
        omega
      | drain =>
        have := ih 0
        simp only [runEvents, touchWheelGetAndClearDelta, ticksTotal]
        omega
  refine ⟨fun a => rfl, fun a => rfl, fun a0 evs => key evs a0, ?_⟩
  intro evs
  rw [runEvents_append]
  have h2 : runEvents (runEvents 0 evs).1 [WheelEvent.drain] =
      (0, (runEvents 0 evs).1) := by
    simp [runEvents, touchWheelGetAndClearDelta]
  rw [h2]
  have := key evs 0
  omega

/-! ## C4: setGlobalLevel vs custom_per_pad -/

/-- A configuration in custom per-pad mode with user overrides on every pad. -/
def c4CustomConfig : TouchSensitivityConfig :=
  { sampleConfig with
    touch_threshold := fun _ => 30
    release_threshold := fun _ => 20
    custom_per_pad := true }

/-- C4 counterexample: the claim says that with `custom_per_pad = true` an
electrode's existing thresholds are left unchanged by a global level write.
In the code, `touch_config_set_sensitivity_level` never consults
`custom_per_pad`: on a custom profile with electrode 0 at touch threshold 30,
setting level 3 overwrites electrode 0 to the table value 8. -/
theorem c4_counterexample :
    c4CustomConfig.custom_per_pad = true ∧
    c4CustomConfig.touch_threshold 0 = 30 ∧
    (touch_config_set_sensitivity_level c4CustomConfig 3).2.touch_threshold 0 = 8 ∧
    (touch_config_set_sensitivity_level c4CustomConfig 3).2.touch_threshold 0 ≠
      c4CustomConfig.touch_threshold 0 := by
  refine ⟨rfl, rfl, ?_, ?_⟩ <;> decide

/-- C4 amended: for every valid level `1 ≤ level ≤ 5` and every electrode,
`touch_config_set_sensitivity_level` succeeds and rewrites the electrode's
thresholds from the lookup-table row for the level — the small-pad table for
electrode 11 when `small_pad_compensation` is on — regardless of
`custom_per_pad` (existing custom thresholds are overwritten too). -/
theorem c4_set_level_rewrites_from_table :
    ∀ (config : TouchSensitivityConfig) (level : ℕ) (h : 1 ≤ level ∧ level ≤ 5) (i : Fin 12),
      (touch_config_set_sensitivity_level config level).1 = true ∧
      (touch_config_set_sensitivity_level config level).2.global_level = level ∧
      (touch_config_set_sensitivity_level config level).2.touch_threshold i =
        (if i.val = TOUCH_SMALL_PAD_ELECTRODE ∧ config.small_pad_compensation then
          (small_pad_levels ⟨level - 1, by omega⟩).1
        else
          (sensitivity_levels ⟨level - 1, by omega⟩).1) ∧
      (touch_config_set_sensitivity_level config level).2.release_threshold i =
        (if i.val = TOUCH_SMALL_PAD_ELECTRODE ∧ config.small_pad_compensation then
          (small_pad_levels ⟨level - 1, by omega⟩).2
        else
          (sensitivity_levels ⟨level - 1, by omega⟩).2) := by
  intro config level h i
  unfold touch_config_set_sensitivity_level
  rw [dif_pos h]
  exact ⟨rfl, rfl, rfl, rfl⟩

/-- Witness for C4 amended: level 3 on the custom profile rewrites the
standard pad 0 to (8, 4) and the small pad 11 to (6, 3). -/
theorem c4_set_level_rewrites_from_table_witness :
    (touch_config_set_sensitivity_level c4CustomConfig 3).1 = true ∧
    (touch_config_set_sensitivity_level c4CustomConfig 3).2.touch_threshold 0 = 8 ∧
    (touch_config_set_sensitivity_level c4CustomConfig 3).2.release_threshold 0 = 4 ∧
    (touch_config_set_sensitivity_level c4CustomConfig 3).2.touch_threshold 11 = 6 ∧
    (touch_config_set_sensitivity_level c4CustomConfig 3).2.release_threshold 11 = 3 := by
  have h0 := c4_set_level_rewrites_from_table c4CustomConfig 3 (by decide) 0
  have h11 := c4_set_level_rewrites_from_table c4CustomConfig 3 (by decide) 11
  refine ⟨h0.1, ?_, ?_, ?_, ?_⟩
  · rw [h0.2.2.1]; decide
  · rw [h0.2.2.2]; decide
  · rw [h11.2.2.1]; decide
  · rw [h11.2.2.2]; decide

/-! ## C9: loading configuration from the store -/

/-- The factory-default configuration produced by `touch_config_init_defaults`
is the constant `sampleConfig` (all input fields are overwritten). -/
theorem init_defaults_eq_sample (config : TouchSensitivityConfig) :
    touch_config_init_defaults config = sampleConfig := by
  simp only [touch_config_init_defaults, touch_config_set_sensitivity_level, sampleConfig]
  rw [dif_pos (by omega : 1 ≤ 3 ∧ 3 ≤ 5)]
  simp only [TouchSensitivityConfig.mk.injEq]
  refine ⟨trivial, ?_, ?_, trivial, trivial, trivial, trivial, trivial, trivial⟩ <;>
    funext i <;> by_cases hi : i.val = TOUCH_SMALL_PAD_ELECTRODE <;>
    simp [hi, TOUCH_SMALL_PAD_ELECTRODE, small_pad_levels, sensitivity_levels]

/-- Factory defaults always pass validation. -/
theorem validate_init_defaults (config : TouchSensitivityConfig) :
    touch_config_validate (touch_config_init_defaults config) = true := by
  rw [init_defaults_eq_sample]; decide

/-- An in-memory configuration that violates the threshold invariant (all
thresholds zero), as it may stand before any load succeeds. -/
def c9BadConfig : TouchSensitivityConfig :=
  { sampleConfig with
    touch_threshold := fun _ => 0
    release_threshold := fun _ => 0 }

/-- C9 counterexample: when the store cannot be opened
(`g_preferences.begin` fails, modelled by `store = none`),
`touch_config_load_from_nvs` returns false and leaves the configuration
exactly as it was — it is neither reset to factory defaults nor guaranteed to
satisfy the validation invariant afterwards. -/
theorem c9_counterexample :
    touch_config_load_from_nvs none c9BadConfig = (false, c9BadConfig) ∧
    touch_config_validate c9BadConfig = false ∧
    (touch_config_load_from_nvs none c9BadConfig).2.touch_threshold 0 = 0 ∧
    (touch_config_init_defaults c9BadConfig).touch_threshold 0 = 8 := by
  refine ⟨rfl, by decide, rfl, ?_⟩
  rw [init_defaults_eq_sample]; decide

/-- C9 amended: a record that is read and validates is returned as stored with
a true result; a record that is read and fails validation is replaced by
factory defaults with a false result; after any load that actually read the
store the configuration passes validation; but when the store cannot be
opened the call returns false with the configuration left untouched (the
caller is responsible for falling back to defaults). -/
theorem c9_load_from_nvs_fallback :
    ∀ (p : StoredPrefs) (config : TouchSensitivityConfig),
      touch_config_load_from_nvs none config = (false, config) ∧
      (touch_config_validate (nvs_loaded_config p) = true →
        touch_config_load_from_nvs (some p) config = (true, nvs_loaded_config p)) ∧
      (touch_config_validate (nvs_loaded_config p) = false →
        touch_config_load_from_nvs (some p) config =
          (false, touch_config_init_defaults (nvs_loaded_config p))) ∧
      touch_config_validate (touch_config_load_from_nvs (some p) config).2 = true := by
  intro p config
  refine ⟨rfl, ?_, ?_, ?_⟩
  · intro hv; simp [touch_config_load_from_nvs, hv]
  · intro hv; simp [touch_config_load_from_nvs, hv]
  · by_cases hv : touch_config_validate (nvs_loaded_config p) = true
    · simp [touch_config_load_from_nvs, hv]
    · simp only [Bool.not_eq_true] at hv
      simp [touch_config_load_from_nvs, hv, validate_init_defaults]

/-- A stored record with every key absent: each field loads its per-key
fallback value. -/
def c9EmptyStore : StoredPrefs :=
  { global_level := none
    custom_per_pad := none
    small_pad_comp := none
    debounce_count := none
    filter_config := none
    auto_cal := none
    cal_interval := none
    touch_th := fun _ => none
    release_th := fun _ => none }

/-- Witness for C9 amended: loading an all-defaults record validates and is
returned as stored; loading with the store closed returns the input config. -/
theorem c9_load_from_nvs_fallback_witness :
    touch_config_load_from_nvs none c9BadConfig = (false, c9BadConfig) ∧
    touch_config_load_from_nvs (some c9EmptyStore) c9BadConfig =
      (true, nvs_loaded_config c9EmptyStore) := by
  have h := c9_load_from_nvs_fallback c9EmptyStore c9BadConfig
  exact ⟨h.1, h.2.1 (by decide)⟩

/-! ## C7: auto-tuner proposals -/

/-- Modelled from the spec: `touchThreshold' = clamp(2·noise + 5, 3, 30)` in
exact integer arithmetic, with no intermediate truncation (the claim's
reading; the code truncates to `uint8_t` first). -/
def spec_recommended_touch_of (noise : ℕ) : ℕ := constrain (noise * 2 + 5) 3 30

/-- Modelled from the spec: `releaseThreshold' = clamp(noise + 2, 1, 15)` in
exact integer arithmetic. -/
def spec_recommended_release_of (noise : ℕ) : ℕ := constrain (noise + 2) 1 15

/-- An auto-tune iteration for electrode `j` does not modify electrode `i`'s
thresholds when `i ≠ j`. -/
theorem auto_tune_step_other (cal : TouchCalibrationData)
    (st : TouchSensitivityConfig × Bool) (j i : Fin 12) (hij : i ≠ j) :
    (auto_tune_step cal st j).1.touch_threshold i = st.1.touch_threshold i ∧
    (auto_tune_step cal st j).1.release_threshold i = st.1.release_threshold i := by
  unfold auto_tune_step
  split
  · split
    · exact ⟨Function.update_noteq hij _ _, Function.update_noteq hij _ _⟩
    · exact ⟨rfl, rfl⟩
  · exact ⟨rfl, rfl⟩

/-- The effect of the auto-tune iteration for electrode `i` on its own
thresholds. -/
theorem auto_tune_step_self (cal : TouchCalibrationData)
    (st : TouchSensitivityConfig × Bool) (i : Fin 12) :
    ((auto_tune_step cal st i).1.touch_threshold i,
     (auto_tune_step cal st i).1.release_threshold i) =
      (if cal.electrode_enabled i ∧
          2 < ((st.1.touch_threshold i : ℤ) -
            (recommended_touch_of (noise_level_of (cal.baseline i) (cal.filtered_data i)) : ℤ)).natAbs
       then (recommended_touch_of (noise_level_of (cal.baseline i) (cal.filtered_data i)),
             recommended_release_of (noise_level_of (cal.baseline i) (cal.filtered_data i)))
       else (st.1.touch_threshold i, st.1.release_threshold i)) := by
  unfold auto_tune_step
  by_cases henab : cal.electrode_enabled i
  · by_cases hdiff : 2 < ((st.1.touch_threshold i : ℤ) -
        (recommended_touch_of (noise_level_of (cal.baseline i) (cal.filtered_data i)) : ℤ)).natAbs
    · rw [if_pos henab, if_pos hdiff, if_pos ⟨henab, hdiff⟩]
      simp [Function.update_same]
    · rw [if_pos henab, if_neg hdiff, if_neg (fun hc => hdiff hc.2)]
  · rw [if_neg henab, if_neg (fun hc => henab hc.1)]

/-- Folding auto-tune iterations over a list not containing `i` leaves
electrode `i`'s thresholds unchanged. -/
theorem auto_tune_foldl_untouched (cal : TouchCalibrationData) :
    ∀ (l : List (Fin 12)) (st : TouchSensitivityConfig × Bool) (i : Fin 12), i ∉ l →
      (l.foldl (auto_tune_step cal) st).1.touch_threshold i = st.1.touch_threshold i ∧
      (l.foldl (auto_tune_step cal) st).1.release_threshold i = st.1.release_threshold i := by
  intro l
  induction l with
  | nil => intro st i _; exact ⟨rfl, rfl⟩
  | cons j rest ih =>
    intro st i hi
    have hij : i ≠ j := fun h => hi (h ▸ List.mem_cons_self j rest)
    have hrest : i ∉ rest := fun h => hi (List.mem_cons_of_mem j h)
    have hstep := auto_tune_step_other cal st j i hij
    have hr := ih (auto_tune_step cal st j) i hrest
    rw [List.foldl_cons]
    exact ⟨hr.1.trans hstep.1, hr.2.trans hstep.2⟩

/-- Folding auto-tune iterations over a duplicate-free list containing `i`
applies exactly the per-electrode update rule to `i`. -/
theorem auto_tune_foldl_at (cal : TouchCalibrationData) :
    ∀ (l : List (Fin 12)) (st : TouchSensitivityConfig × Bool) (i : Fin 12),
      l.Nodup → i ∈ l →
      ((l.foldl (auto_tune_step cal) st).1.touch_threshold i,
       (l.foldl (auto_tune_step cal) st).1.release_threshold i) =
        (if cal.electrode_enabled i ∧
            2 < ((st.1.touch_threshold i : ℤ) -
              (recommended_touch_of (noise_level_of (cal.baseline i) (cal.filtered_data i)) : ℤ)).natAbs
         then (recommended_touch_of (noise_level_of (cal.baseline i) (cal.filtered_data i)),
               recommended_release_of (noise_level_of (cal.baseline i) (cal.filtered_data i)))
         else (st.1.touch_threshold i, st.1.release_threshold i)) := by
  intro l
  induction l with
  | nil => intro st i _ hmem; exact absurd hmem (List.not_mem_nil i)
  | cons j rest ih =>
    intro st i hnodup hmem
    have hnr : rest.Nodup := (List.nodup_cons.mp hnodup).2
    have hjr : j ∉ rest := (List.nodup_cons.mp hnodup).1
    rw [List.foldl_cons]
    rcases List.mem_cons.mp hmem with hji | hir
    · subst hji
      have huntouched := auto_tune_foldl_untouched cal rest (auto_tune_step cal st i) i hjr
      rw [huntouched.1, huntouched.2]
      exact auto_tune_step_self cal st i
    · have hij : i ≠ j := fun h => hjr (h ▸ hir)
      have hstep := auto_tune_step_other cal st j i hij
      rw [ih (auto_tune_step cal st j) i hnr hir, hstep.1, hstep.2]

/-- C7 counterexample: with baseline 326 and filtered 200 on an enabled
electrode, noise = 126 and `2·126 + 5 = 257` wraps to 1 in the `uint8_t`
assignment before `constrain`, so the code proposes and applies a touch
threshold of 3 where the claim's exact arithmetic would give 30. -/
theorem c7_counterexample :
    noise_level_of 326 200 = 126 ∧
    recommended_touch_of 126 = 3 ∧
    spec_recommended_touch_of 126 = 30 ∧
    (touch_calibration_auto_tune_sensitivity sampleConfig
      { baseline := fun i => if i.val = 0 then 326 else 200
        filtered_data := fun _ => 200
        touch_delta := fun _ => 0
        electrode_enabled := fun i => decide (i.val = 0)
        last_calibration_time := 0
        calibration_needed := false }).1.touch_threshold 0 = 3 := by
  refine ⟨by decide, by decide, by decide, ?_⟩
  decide

/-- C7 amended: for every enabled electrode the auto-tuner proposes
`touchThreshold' = clamp((2·noise + 5) mod 256, 3, 30)` and
`releaseThreshold' = clamp((noise + 2) mod 256, 1, 15)` — the `uint8_t`
truncation happens before clamping, and agrees with the claim's exact
arithmetic exactly when the pre-truncation values fit in a byte — and
rewrites the electrode's stored thresholds only when the proposed touch
threshold differs from the current one by more than 2 units. -/
theorem c7_auto_tune_proposals :
    (∀ (config : TouchSensitivityConfig) (cal : TouchCalibrationData) (i : Fin 12),
      ((touch_calibration_auto_tune_sensitivity config cal).1.touch_threshold i,
       (touch_calibration_auto_tune_sensitivity config cal).1.release_threshold i) =
        (if cal.electrode_enabled i ∧
            2 < ((config.touch_threshold i : ℤ) -
              (recommended_touch_of (noise_level_of (cal.baseline i) (cal.filtered_data i)) : ℤ)).natAbs
         then (recommended_touch_of (noise_level_of (cal.baseline i) (cal.filtered_data i)),
               recommended_release_of (noise_level_of (cal.baseline i) (cal.filtered_data i)))
         else (config.touch_threshold i, config.release_threshold i))) ∧
    (∀ noise : ℕ, noise * 2 + 5 ≤ 255 →
      recommended_touch_of noise = spec_recommended_touch_of noise) ∧
    (∀ noise : ℕ, noise + 2 ≤ 255 →
      recommended_release_of noise = spec_recommended_release_of noise) := by
  refine ⟨?_, ?_, ?_⟩
  · intro config cal i
    exact auto_tune_foldl_at cal (List.finRange 12) (config, false) i
      (List.nodup_finRange 12) (List.mem_finRange i)
  · intro noise h
    unfold recommended_touch_of spec_recommended_touch_of
    rw [Nat.mod_eq_of_lt (by omega)]
  · intro noise h
    unfold recommended_release_of spec_recommended_release_of
    rw [Nat.mod_eq_of_lt (by omega)]

/-- Witness for C7 amended: a quiet electrode (noise 0 on electrode 0 of
`sampleCal`, all electrodes enabled, proposal touch 5 vs current 8 differs by
exactly 3 > 2) is rewritten to (5, 2); and at noise 10 the truncating and
exact formulas agree. -/
theorem c7_auto_tune_proposals_witness :
    (touch_calibration_auto_tune_sensitivity sampleConfig sampleCal).1.touch_threshold 0 = 5 ∧
    (touch_calibration_auto_tune_sensitivity sampleConfig sampleCal).1.release_threshold 0 = 2 ∧
    recommended_touch_of 10 = spec_recommended_touch_of 10 ∧
    recommended_release_of 10 = spec_recommended_release_of 10 := by
  have h := c7_auto_tune_proposals.1 sampleConfig sampleCal 0
  have ht := c7_auto_tune_proposals.2.1 10 (by decide)
  have hr := c7_auto_tune_proposals.2.2 10 (by decide)
  rw [Prod.mk.injEq] at h
  refine ⟨?_, ?_, ht, hr⟩
  · rw [h.1]; decide
  · rw [h.2]; decide

/-! ## C2: step accumulator conservation -/

/-- The positive emit loop returns `f` minus the emitted steps, leaves less
than half a step, and (when it ran at all) leaves at least minus half a step. -/
theorem emitPos_spec (f : ℚ) :
    (emitPos f).2 = f - (emitPos f).1 ∧ (emitPos f).2 < 1 / 2 ∧
    ((emitPos f).1 = 0 ∨ -(1 / 2) ≤ (emitPos f).2) := by
  have main : ∀ (n : ℕ) (f : ℚ), (⌈f⌉).toNat ≤ n →
      (emitPos f).2 = f - (emitPos f).1 ∧ (emitPos f).2 < 1 / 2 ∧
      ((emitPos f).1 = 0 ∨ -(1 / 2) ≤ (emitPos f).2) := by
    intro n
    induction n with
    | zero =>
      intro f hf
      have hlt : ¬ 1 / 2 ≤ f := by
        intro hge
        have h1 : (1 : ℤ) ≤ ⌈f⌉ := Int.ceil_pos.mpr (by linarith)
        omega
      rw [emitPos, dif_neg hlt]
      exact ⟨by push_cast; ring, by linarith [not_le.mp hlt], Or.inl rfl⟩
    | succ n ih =>
      intro f hf
      by_cases h : 1 / 2 ≤ f
      · have h1 : (1 : ℤ) ≤ ⌈f⌉ := Int.ceil_pos.mpr (by linarith)
        have h2 : ⌈f - 1⌉ = ⌈f⌉ - 1 := Int.ceil_sub_one f
        have hrec := ih (f - 1) (by omega)
        rw [emitPos, dif_pos h]
        refine ⟨?_, hrec.2.1, Or.inr ?_⟩
        · have := hrec.1
          push_cast at this ⊢
          linarith
        · rcases hrec.2.2 with h0 | hge
          · have := hrec.1
            rw [h0] at this
            push_cast at this
            linarith
          · exact hge
      · rw [emitPos, dif_neg h]
        exact ⟨by push_cast; ring, by linarith [not_le.mp h], Or.inl rfl⟩
  exact main (⌈f⌉).toNat f le_rfl

/-- The negative emit loop returns `f` minus the emitted steps, leaves more
than minus half a step, and (when it ran at all) leaves at most half a step. -/
theorem emitNeg_spec (f : ℚ) :
    (emitNeg f).2 = f - (emitNeg f).1 ∧ -(1 / 2) < (emitNeg f).2 ∧
    ((emitNeg f).1 = 0 ∨ (emitNeg f).2 ≤ 1 / 2) := by
  have main : ∀ (n : ℕ) (f : ℚ), (⌈-f⌉).toNat ≤ n →
      (emitNeg f).2 = f - (emitNeg f).1 ∧ -(1 / 2) < (emitNeg f).2 ∧
      ((emitNeg f).1 = 0 ∨ (emitNeg f).2 ≤ 1 / 2) := by
    intro n
    induction n with
    | zero =>
      intro f hf
      have hlt : ¬ f ≤ -(1 / 2) := by
        intro hge
        have h1 : (1 : ℤ) ≤ ⌈-f⌉ := Int.ceil_pos.mpr (by linarith)
        omega
      rw [emitNeg, dif_neg hlt]
      exact ⟨by push_cast; ring, by linarith [not_le.mp hlt], Or.inl rfl⟩
    | succ n ih =>
      intro f hf
      by_cases h : f ≤ -(1 / 2)
      · have h1 : (1 : ℤ) ≤ ⌈-f⌉ := Int.ceil_pos.mpr (by linarith)
        have h2 : ⌈-(f + 1)⌉ = ⌈-f⌉ - 1 := by
          rw [show -(f + 1) = -f - 1 by ring]
          exact Int.ceil_sub_one (-f)
        have hrec := ih (f + 1) (by omega)
        rw [emitNeg, dif_pos h]
        refine ⟨?_, hrec.2.1, Or.inr ?_⟩
        · have := hrec.1
          push_cast at this ⊢
          linarith
        · rcases hrec.2.2 with h0 | hle
          · have := hrec.1
            rw [h0] at this
            push_cast at this
            linarith
          · exact hle
      · rw [emitNeg, dif_neg h]
        exact ⟨by push_cast; ring, by linarith [not_le.mp h], Or.inl rfl⟩
  exact main (⌈-f⌉).toNat f le_rfl

/-- One in-session frame: step emission conserves `accum + frac`, bounds the
remaining fractional accumulator by half a step, and records the position. -/
theorem processPos_spec (invert : Bool) (st : MotionState) (p : ℚ) :
    ((processPos invert st p).accum : ℚ) + (processPos invert st p).frac =
      (st.accum : ℚ) + st.frac + sessionDiff invert p st.lastPos ∧
    |(processPos invert st p).frac| ≤ 1 / 2 ∧
    (processPos invert st p).lastPos = p := by
  have h1 := emitPos_spec (st.frac + sessionDiff invert p st.lastPos)
  have h2 := emitNeg_spec (emitPos (st.frac + sessionDiff invert p st.lastPos)).2
  simp only [processPos]
  refine ⟨?_, ?_, trivial⟩
  · have e1 := h1.1
    have e2 := h2.1
    push_cast at e1 e2 ⊢
    linarith
  · rcases h2.2.2 with h0 | hle
    · have e2 := h2.1
      rw [h0] at e2
      push_cast at e2
      have := h1.2.1
      have := h2.2.1
      rw [abs_le]
      constructor <;> linarith
    · have := h2.2.1
      rw [abs_le]
      constructor <;> linarith

/-- Running a session from any state: `accum + frac` increases by exactly the
sum of the session diffs, and the half-step bound on `frac` is preserved. -/
theorem runSession_spec (invert : Bool) :
    ∀ (ps : List ℚ) (st : MotionState),
      ((runSession invert st ps).accum : ℚ) + (runSession invert st ps).frac =
        (st.accum : ℚ) + st.frac + (sessionDiffs invert st.lastPos ps).sum ∧
      (|st.frac| ≤ 1 / 2 → |(runSession invert st ps).frac| ≤ 1 / 2) := by
  intro ps
  induction ps with
  | nil => intro st; simp [runSession, sessionDiffs]
  | cons p rest ih =>
    intro st
    have hstep := processPos_spec invert st p
    have hr := ih (processPos invert st p)
    have hfold : runSession invert st (p :: rest) =
        runSession invert (processPos invert st p) rest := rfl
    rw [hfold]
    constructor
    · rw [hr.1, hstep.2.2]
      simp only [sessionDiffs, List.sum_cons]
      linarith [hstep.1]
    · intro _
      exact hr.2 hstep.2.1

/-- C2: over any active session started with a zero fractional accumulator,
the total of emitted steps equals the sum of the wrap-corrected (and possibly
inverted) position differences minus the final fractional accumulator; the
final fractional accumulator has absolute value at most one half; hence the
emitted step total is within one step of the rounded diff sum. -/
theorem c2_step_accumulator_no_lost_motion :
    ∀ (invert : Bool) (q0 : ℚ) (ps : List ℚ),
      ((runSession invert ⟨q0, 0, 0⟩ ps).accum : ℚ) =
        (sessionDiffs invert q0 ps).sum - (runSession invert ⟨q0, 0, 0⟩ ps).frac ∧
      |(runSession invert ⟨q0, 0, 0⟩ ps).frac| ≤ 1 / 2 ∧
      |((runSession invert ⟨q0, 0, 0⟩ ps).accum : ℚ) -
          ((round (sessionDiffs invert q0 ps).sum : ℤ) : ℚ)| ≤ 1 := by
  intro invert q0 ps
  have h := runSession_spec invert ps ⟨q0, 0, 0⟩
  have hid : ((runSession invert ⟨q0, 0, 0⟩ ps).accum : ℚ) +
      (runSession invert ⟨q0, 0, 0⟩ ps).frac = (sessionDiffs invert q0 ps).sum := by
    have := h.1
    norm_num at this
    exact this
  have hbound : |(runSession invert ⟨q0, 0, 0⟩ ps).frac| ≤ 1 / 2 :=
    h.2 (by norm_num)
  refine ⟨by linarith, hbound, ?_⟩
  have hround : |(sessionDiffs invert q0 ps).sum -
      ((round (sessionDiffs invert q0 ps).sum : ℤ) : ℚ)| ≤ 1 / 2 :=
    abs_sub_round (sessionDiffs invert q0 ps).sum
  have habs := abs_le.mp hbound
  have hr2 := abs_le.mp hround
  rw [abs_le]
  constructor <;> linarith

/-! ## C3: activity gate debounce -/

/-- From an idle state whose active streak is at most 1 (and whose pending
streak of 1 is not about to be extended), a frame sequence with no two
consecutive qualifying frames can never reach the active state. -/
theorem runGate_stays_idle : ∀ (qs : List Bool) (s : GateState),
    s.isActive = false → s.activeFrames ≤ 1 →
    (s.activeFrames = 1 → qs.headD false = false) →
    noTwoConsec qs = true →
    (qs.foldl gateStep s).isActive = false := by
  intro qs
  induction qs with
  | nil => intro s hact _ _ _; exact hact
  | cons q rest ih =>
    intro s hact hle hhead hno
    obtain ⟨act, af, qf⟩ := s
    simp only at hact
    subst hact
    have hle' : af ≤ 1 := hle
    have hhead' : af = 1 → (q :: rest).headD false = false := hhead
    cases q with
    | true =>
      have haf : af = 0 := by
        have h1 : af ≠ 1 := fun h => by simpa using hhead' h
        omega
      subst haf
      have hstep : gateStep ⟨false, 0, qf⟩ true = ⟨false, 1, 0⟩ := by
        simp [gateStep]
      rw [List.foldl_cons, hstep]
      refine ih ⟨false, 1, 0⟩ rfl (by norm_num) ?_ ?_
      · intro _
        cases rest with
        | nil => rfl
        | cons b r =>
          simp only [noTwoConsec, Bool.and_eq_true, Bool.not_eq_eq_eq_not] at hno
          simp only [List.headD]
          have := hno.1
          simp at this
          exact this
      · cases rest with
        | nil => rfl
        | cons b r =>
          simp only [noTwoConsec, Bool.and_eq_true] at hno ⊢
          exact hno.2
    | false =>
      have hstep : gateStep ⟨false, af, qf⟩ false = ⟨false, 0, qf + 1⟩ := by
        simp [gateStep]
      rw [List.foldl_cons, hstep]
      refine ih ⟨false, 0, qf + 1⟩ rfl (by simp) (fun h => absurd h (by simp)) ?_
      cases rest with
      | nil => rfl
      | cons b r =>
        simp only [noTwoConsec, Bool.and_eq_true] at hno ⊢
        exact hno.2

/-- Three consecutive non-qualifying frames force the gate inactive from any
starting state. -/
theorem gateStep_false_eq (s : GateState) :
    gateStep s false =
      ⟨s.isActive && !(decide (3 ≤ s.quietFrames + 1)), 0, s.quietFrames + 1⟩ := by
  unfold gateStep
  cases h : s.isActive <;> by_cases h3 : 3 ≤ s.quietFrames + 1 <;> simp [h, h3]

theorem gate_three_quiet (s : GateState) :
    (gateStep (gateStep (gateStep s false) false) false).isActive = false := by
  obtain ⟨act, af, qf⟩ := s
  simp only [gateStep_false_eq]
  have h3 : 3 ≤ qf + 1 + 1 + 1 := by omega
  simp [h3]

/-- C3: starting from the idle initial state, the gate never reports active
on a frame sequence without two consecutive qualifying frames (each frame
qualifies through the hardware touched bits or a max strength of at least
10); after any history, three consecutive non-qualifying frames always leave
the gate inactive; one qualifying frame alone does not activate; two
consecutive qualifying frames do activate. -/
theorem c3_activity_gate_debounce :
    (∀ fs : List (Bool × ℚ),
      noTwoConsec (fs.map fun f => proposedActive f.1 f.2) = true →
      (runGate gateInit fs).isActive = false) ∧
    (∀ (s : GateState) (pre : List (Bool × ℚ)) (f1 f2 f3 : Bool × ℚ),
      proposedActive f1.1 f1.2 = false → proposedActive f2.1 f2.2 = false →
      proposedActive f3.1 f3.2 = false →
      (runGate s (pre ++ [f1, f2, f3])).isActive = false) ∧
    (∀ f : Bool × ℚ, proposedActive f.1 f.2 = true →
      (runGate gateInit [f]).isActive = false) ∧
    (∀ f1 f2 : Bool × ℚ, proposedActive f1.1 f1.2 = true → proposedActive f2.1 f2.2 = true →
      (runGate gateInit [f1, f2]).isActive = true) := by
  refine ⟨?_, ?_, ?_, ?_⟩
  · intro fs hno
    have hmap : runGate gateInit fs =
        (fs.map fun f => proposedActive f.1 f.2).foldl gateStep gateInit := by
      rw [List.foldl_map]
      rfl
    rw [hmap]
    exact runGate_stays_idle _ gateInit rfl (by decide) (fun h => absurd h (by decide)) hno
  · intro s pre f1 f2 f3 h1 h2 h3
    have happ : runGate s (pre ++ [f1, f2, f3]) =
        runGate (runGate s pre) [f1, f2, f3] := List.foldl_append _ _ _ _
    rw [happ]
    show (gateFrameStep (gateFrameStep (gateFrameStep (runGate s pre) f1) f2) f3).isActive
      = false
    unfold gateFrameStep
    rw [h1, h2, h3]
    exact gate_three_quiet (runGate s pre)
  · intro f hf
    show (gateFrameStep gateInit f).isActive = false
    unfold gateFrameStep
    rw [hf]
    rfl
  · intro f1 f2 h1 h2
    show (gateFrameStep (gateFrameStep gateInit f1) f2).isActive = true
    unfold gateFrameStep
    rw [h1, h2]
    rfl

/-- Witness for C3: one qualifying frame (then a quiet one) leaves the gate
idle, three quiet frames deactivate an active gate, a single qualifying frame
does not activate, and exactly two do. -/
theorem c3_activity_gate_debounce_witness :
    (runGate gateInit [(true, 0), (false, 0)]).isActive = false ∧
    (runGate ⟨true, 0, 0⟩ [(false, 0), (false, 0), (false, 0)]).isActive = false ∧
    (runGate gateInit [(true, 0)]).isActive = false ∧
    (runGate gateInit [(true, 0), (true, 0)]).isActive = true :=
  ⟨c3_activity_gate_debounce.1 [(true, 0), (false, 0)] (by decide),
   c3_activity_gate_debounce.2.1 ⟨true, 0, 0⟩ [] (false, 0) (false, 0) (false, 0)
     (by decide) (by decide) (by decide),
   c3_activity_gate_debounce.2.2.1 (true, 0) (by decide),
   c3_activity_gate_debounce.2.2.2 (true, 0) (true, 0) (by decide) (by decide)⟩

/-! ## C1: position estimator range and concentration -/

/-- The normalized angle-to-position map of lines 85-89 always lands in
`[0, 12)`. -/
theorem positionOfSums_mem (sx sy : ℝ) :
    0 ≤ positionOfSums sx sy ∧ positionOfSums sx sy < 12 := by
  have hpi := Real.pi_pos
  have h2pi : (0 : ℝ) < 2 * Real.pi := by linarith
  unfold positionOfSums atan2
  set θ := Complex.arg (Complex.mk sx sy) with hθ
  have hlo : -Real.pi < θ := Complex.neg_pi_lt_arg _
  have hhi : θ ≤ Real.pi := Complex.arg_le_pi _
  by_cases hneg : θ < 0
  · rw [if_pos hneg]
    constructor
    · apply div_nonneg _ h2pi.le
      have h1 : 0 ≤ θ + 2 * Real.pi := by linarith
      exact mul_nonneg h1 (by norm_num)
    · rw [div_lt_iff h2pi]
      nlinarith
  · rw [if_neg hneg]
    push_neg at hneg
    constructor
    · exact div_nonneg (mul_nonneg hneg (by norm_num)) h2pi.le
    · rw [div_lt_iff h2pi]
      nlinarith

/-- A pure single-electrode signal at logical slot `k` maps to position
exactly `k`. -/
theorem positionOfSums_single (k : Fin 12) (s : ℝ) (hs : 0 < s) :
    positionOfSums (Real.cos (2 * Real.pi * k / 12) * s)
      (Real.sin (2 * Real.pi * k / 12) * s) = ((k : ℕ) : ℝ) := by
  have hpi := Real.pi_pos
  have hk0 : (0 : ℝ) ≤ ((k : ℕ) : ℝ) := Nat.cast_nonneg _
  have hklt : ((k : ℕ) : ℝ) < 12 := by exact_mod_cast k.isLt
  have hmk : ∀ φ : ℝ, Real.cos φ = Real.cos (2 * Real.pi * k / 12) →
      Real.sin φ = Real.sin (2 * Real.pi * k / 12) → φ ∈ Set.Ioc (-Real.pi) Real.pi →
      atan2 (Real.sin (2 * Real.pi * k / 12) * s) (Real.cos (2 * Real.pi * k / 12) * s) = φ := by
    intro φ hcos hsin hφ
    unfold atan2
    have hz : Complex.mk (Real.cos (2 * Real.pi * k / 12) * s)
        (Real.sin (2 * Real.pi * k / 12) * s) =
        (s : ℂ) * (Complex.cos (φ : ℂ) + Complex.sin (φ : ℂ) * Complex.I) := by
      rw [Complex.mk_eq_add_mul_I, ← hcos, ← hsin, Complex.ofReal_mul, Complex.ofReal_mul,
        Complex.ofReal_cos, Complex.ofReal_sin]
      ring
    rw [hz, Complex.arg_mul_cos_add_sin_mul_I hs hφ]
  by_cases hk6 : (k : ℕ) ≤ 6
  · have hkr : ((k : ℕ) : ℝ) ≤ 6 := by exact_mod_cast hk6
    have haux : 0 ≤ Real.pi * (6 - ((k : ℕ) : ℝ)) := mul_nonneg hpi.le (by linarith)
    have hθ0 : 0 ≤ 2 * Real.pi * k / 12 := by
      have : 0 ≤ Real.pi * ((k : ℕ) : ℝ) := mul_nonneg hpi.le hk0
      nlinarith
    have hθpi : 2 * Real.pi * k / 12 ≤ Real.pi := by nlinarith
    have harg := hmk (2 * Real.pi * k / 12) rfl rfl ⟨by linarith, hθpi⟩
    unfold positionOfSums
    rw [harg, if_neg (not_lt.mpr hθ0)]
    field_simp
  · push_neg at hk6
    have hkr : (6 : ℝ) < ((k : ℕ) : ℝ) := by exact_mod_cast hk6
    have haux1 : 0 < Real.pi * (((k : ℕ) : ℝ) - 6) := mul_pos hpi (by linarith)
    have haux2 : 0 < Real.pi * (12 - ((k : ℕ) : ℝ)) := mul_pos hpi (by linarith)
    have hgtpi : Real.pi < 2 * Real.pi * k / 12 := by nlinarith
    have hlt2pi : 2 * Real.pi * k / 12 < 2 * Real.pi := by nlinarith
    have hcos : Real.cos (2 * Real.pi * k / 12 - 2 * Real.pi) =
        Real.cos (2 * Real.pi * k / 12) := Real.cos_sub_two_pi _
    have hsin : Real.sin (2 * Real.pi * k / 12 - 2 * Real.pi) =
        Real.sin (2 * Real.pi * k / 12) := Real.sin_sub_two_pi _
    have harg := hmk (2 * Real.pi * k / 12 - 2 * Real.pi) hcos hsin
      ⟨by linarith, by linarith⟩
    unfold positionOfSums
    rw [harg, if_pos (by linarith)]
    have hsimp : 2 * Real.pi * k / 12 - 2 * Real.pi + 2 * Real.pi =
        2 * Real.pi * k / 12 := by ring
    rw [hsimp]
    field_simp

/-- If all the strength sits on slot `k`, `totalMag` is exactly that
strength. -/
theorem totalMag_single (fr : Frame) (ord : Fin 12 → Fin 12) (k : Fin 12)
    (hk : 0 < slotStrength fr ord k)
    (ho : ∀ j : Fin 12, j ≠ k → slotStrength fr ord j = 0) :
    totalMag fr ord = slotStrength fr ord k := by
  unfold totalMag
  rw [Finset.sum_eq_single k]
  · rw [if_pos hk]
  · intro j _ hjk
    rw [ho j hjk]
    simp
  · intro hk2
    exact absurd (Finset.mem_univ k) hk2

/-- If all the strength sits on slot `k`, `sumX` collapses to its term. -/
theorem sumX_single (fr : Frame) (ord : Fin 12 → Fin 12) (k : Fin 12)
    (hk : 0 < slotStrength fr ord k)
    (ho : ∀ j : Fin 12, j ≠ k → slotStrength fr ord j = 0) :
    sumX fr ord = Real.cos (2 * Real.pi * k / 12) * (slotStrength fr ord k : ℝ) := by
  unfold sumX
  rw [Finset.sum_eq_single k]
  · rw [if_pos hk]
  · intro j _ hjk
    rw [if_neg (by rw [ho j hjk]; exact lt_irrefl 0)]
  · intro hk2
    exact absurd (Finset.mem_univ k) hk2

/-- If all the strength sits on slot `k`, `sumY` collapses to its term. -/
theorem sumY_single (fr : Frame) (ord : Fin 12 → Fin 12) (k : Fin 12)
    (hk : 0 < slotStrength fr ord k)
    (ho : ∀ j : Fin 12, j ≠ k → slotStrength fr ord j = 0) :
    sumY fr ord = Real.sin (2 * Real.pi * k / 12) * (slotStrength fr ord k : ℝ) := by
  unfold sumY
  rw [Finset.sum_eq_single k]
  · rw [if_pos hk]
  · intro j _ hjk
    rw [if_neg (by rw [ho j hjk]; exact lt_irrefl 0)]
  · intro hk2
    exact absurd (Finset.mem_univ k) hk2

/-- A frame whose strength is concentrated on slot `k` estimates exactly
position `k`. -/
theorem estimatePosition_concentrated (fr : Frame) (ord : Fin 12 → Fin 12) (k : Fin 12)
    (hk : 0 < slotStrength fr ord k)
    (ho : ∀ j : Fin 12, j ≠ k → slotStrength fr ord j = 0) :
    estimatePosition fr ord = some (((k : ℕ) : ℝ)) := by
  have htm := totalMag_single fr ord k hk ho
  have hpos : 0 < totalMag fr ord := by rw [htm]; exact hk
  unfold estimatePosition
  rw [if_pos hpos, sumX_single fr ord k hk ho, sumY_single fr ord k hk ho]
  have hcast : (0 : ℝ) < (slotStrength fr ord k : ℝ) := by exact_mod_cast hk
  rw [positionOfSums_single k _ hcast]

/-- C1: whenever at least one electrode carries positive strength (so the
total magnitude of the baseline-delta pass is positive), the estimator
returns a position in `[0, 12)`; and a frame whose strength is concentrated
entirely on the electrode in logical slot `k` estimates exactly position `k`
(exact in the real-number model of the float arithmetic). -/
theorem c1_position_estimator :
    ∀ (fr : Frame) (ord : Fin 12 → Fin 12),
      (0 < totalMag fr ord →
        ∃ p : ℝ, estimatePosition fr ord = some p ∧ 0 ≤ p ∧ p < 12) ∧
      (∀ k : Fin 12, 0 < slotStrength fr ord k →
        (∀ j : Fin 12, j ≠ k → slotStrength fr ord j = 0) →
        estimatePosition fr ord = some (((k : ℕ) : ℝ))) := by
  intro fr ord
  constructor
  · intro h
    refine ⟨positionOfSums (sumX fr ord) (sumY fr ord), ?_,
      (positionOfSums_mem _ _).1, (positionOfSums_mem _ _).2⟩
    unfold estimatePosition
    rw [if_pos h]
  · exact estimatePosition_concentrated fr ord

/-- A frame with all the signal on electrode 0: baseline 150 vs filtered 100
there, flat 100/100 elsewhere. -/
def c1Frame : Frame :=
  { baselineData := fun i => if i.val = 0 then 150 else 100
    filteredData := fun _ => 100
    anyTouched := true }

/-- Witness for C1: on the concrete single-electrode frame the estimator
returns a position in range, and that position is exactly electrode 0. -/
theorem c1_position_estimator_witness :
    (∃ p : ℝ, estimatePosition c1Frame (fun i => i) = some p ∧ 0 ≤ p ∧ p < 12) ∧
    estimatePosition c1Frame (fun i => i) = some (((0 : Fin 12) : ℕ) : ℝ) :=
  ⟨(c1_position_estimator c1Frame (fun i => i)).1
      (by norm_num [totalMag, slotStrength, strengthOf, c1Frame, Fin.sum_univ_succ]),
   (c1_position_estimator c1Frame (fun i => i)).2 0
      (by norm_num [slotStrength, strengthOf, c1Frame])
      (by
        intro j hj
        have hv : j.val ≠ 0 := fun h => hj (Fin.ext h)
        norm_num [slotStrength, strengthOf, c1Frame, hv])⟩

/-! ## C5: disabled electrodes and the position estimator -/

/-- A frame with electrode `e`'s reading removed: its baseline is set equal
to its filtered value, so its baseline-delta strength is zero. -/
def zeroElectrode (fr : Frame) (e : Fin 12) : Frame :=
  { fr with baselineData := Function.update fr.baselineData e (fr.filteredData e) }

/-- A calibration state in which every electrode is disabled. -/
def c5Cal : TouchCalibrationData :=
  { baseline := fun _ => 250
    filtered_data := fun _ => 200
    touch_delta := fun _ => 50
    electrode_enabled := fun _ => false
    last_calibration_time := 0
    calibration_needed := false }

/-- A frame with all the signal on electrode 3 (baseline 250 vs filtered 200
there, flat 200/200 elsewhere). -/
def c5Frame : Frame :=
  { baselineData := fun i => if i.val = 3 then 250 else 200
    filteredData := fun _ => 200
    anyTouched := false }

/-- C5 counterexample: the claim says a disabled electrode contributes zero
weight to position estimation. The estimator of `touchTask` never consults
`electrode_enabled`: with every electrode disabled in the calibration state,
a frame whose only signal sits on electrode 3 still estimates position 3,
while removing that electrode's reading changes the estimate to `none` and
changes `totalMag` from 50 to 0. -/
theorem c5_counterexample :
    c5Cal.electrode_enabled 3 = false ∧
    estimatePosition c5Frame (fun i => i) = some (((3 : Fin 12) : ℕ) : ℝ) ∧
    estimatePosition (zeroElectrode c5Frame 3) (fun i => i) = none ∧
    totalMag c5Frame (fun i => i) ≠ totalMag (zeroElectrode c5Frame 3) (fun i => i) := by
  have h3v : ((3 : Fin 12) : ℕ) = 3 := rfl
  have hstrength3 : slotStrength c5Frame (fun i => i) 3 = 50 := by
    norm_num [slotStrength, strengthOf, c5Frame, h3v]
  have hothers : ∀ j : Fin 12, j ≠ 3 → slotStrength c5Frame (fun i => i) j = 0 := by
    intro j hj
    have hv : j.val ≠ 3 := fun h => hj (Fin.ext h)
    norm_num [slotStrength, strengthOf, c5Frame, hv]
  have htm : totalMag c5Frame (fun i => i) = 50 := by
    rw [totalMag_single c5Frame _ 3 (by rw [hstrength3]; norm_num) hothers, hstrength3]
  have hzslots : ∀ j : Fin 12, slotStrength (zeroElectrode c5Frame 3) (fun i => i) j = 0 := by
    intro j
    by_cases hj : j = (3 : Fin 12)
    · subst hj
      simp only [slotStrength, zeroElectrode, Function.update_same]
      norm_num [strengthOf, c5Frame]
    · simp only [slotStrength, zeroElectrode]
      rw [Function.update_noteq hj]
      exact hothers j hj
  have htz : totalMag (zeroElectrode c5Frame 3) (fun i => i) = 0 := by
    unfold totalMag
    apply Finset.sum_eq_zero
    intro j _
    rw [hzslots j]
    norm_num
  refine ⟨rfl, ?_, ?_, ?_⟩
  · exact estimatePosition_concentrated c5Frame _ 3 (by rw [hstrength3]; norm_num) hothers
  · have hfb : fbTotalMag (zeroElectrode c5Frame 3) (fun i => i) = 0 := by
      unfold fbTotalMag
      apply Finset.sum_eq_zero
      intro j _
      have hf : fbStrength (zeroElectrode c5Frame 3) (fun i => i) j = 0 := by
        simp only [fbStrength, zeroElectrode]
        norm_num [c5Frame]
      rw [hf]
      norm_num
    unfold estimatePosition
    rw [htz, hfb]
    norm_num
  · rw [htm, htz]
    norm_num

/-- C5 amended: the `touchTask` estimator does not read `electrode_enabled`
at all — an electrode contributes its full baseline-delta strength to the
total magnitude whether or not it is disabled (removing the contribution
requires removing the reading itself) — while in the calibration module a
disabled electrode does report as not touched. -/
theorem c5_estimator_ignores_enabled_flag :
    ∀ (cal : TouchCalibrationData) (config : TouchSensitivityConfig) (e : Fin 12) (fr : Frame),
      cal.electrode_enabled e = false →
      touch_calibration_is_electrode_touched cal config e.val = false ∧
      totalMag fr (fun i => i) = totalMag (zeroElectrode fr e) (fun i => i) +
        (if 0 < slotStrength fr (fun i => i) e then slotStrength fr (fun i => i) e else 0) := by
  intro cal config e fr hdis
  constructor
  · unfold touch_calibration_is_electrode_touched
    rw [dif_pos (show e.val < TOUCH_ELECTRODE_COUNT from e.isLt)]
    have he : (⟨e.val, e.isLt⟩ : Fin 12) = e := Fin.eta e e.isLt
    rw [if_neg]
    rw [he, hdis]
    simp
  · have hz : ∀ j : Fin 12, slotStrength (zeroElectrode fr e) (fun i => i) j =
        if j = e then 0 else slotStrength fr (fun i => i) j := by
      intro j
      by_cases hj : j = e
      · subst hj
        simp only [slotStrength, zeroElectrode, Function.update_same, if_pos rfl]
        norm_num [strengthOf]
      · simp only [slotStrength, zeroElectrode, if_neg hj]
        rw [Function.update_noteq hj]
    have hterm : ∀ j : Fin 12,
        (if 0 < slotStrength (zeroElectrode fr e) (fun i => i) j then
          slotStrength (zeroElectrode fr e) (fun i => i) j else 0) =
        if j = e then 0 else
          (if 0 < slotStrength fr (fun i => i) j then slotStrength fr (fun i => i) j else 0) := by
      intro j
      rw [hz j]
      by_cases hj : j = e
      · simp [hj]
      · simp [hj]
    unfold totalMag
    set t : Fin 12 → ℚ := fun j =>
      if 0 < slotStrength fr (fun i => i) j then slotStrength fr (fun i => i) j else 0 with ht
    have h2 : ∑ j : Fin 12,
        (if 0 < slotStrength (zeroElectrode fr e) (fun i => i) j then
          slotStrength (zeroElectrode fr e) (fun i => i) j else 0) =
        ∑ j ∈ Finset.univ.erase e, t j := by
      rw [Finset.sum_congr rfl fun j _ => hterm j]
      rw [← Finset.add_sum_erase Finset.univ (fun j => if j = e then 0 else t j)
        (Finset.mem_univ e)]
      rw [if_pos rfl, zero_add]
      exact Finset.sum_congr rfl fun j hj => if_neg (Finset.ne_of_mem_erase hj)
    have h3 : ∑ j : Fin 12, t j = t e + ∑ j ∈ Finset.univ.erase e, t j :=
      (Finset.add_sum_erase Finset.univ t (Finset.mem_univ e)).symm
    rw [h2, h3]
    ring

/-- Witness for C5 amended at the all-disabled calibration state and the
electrode-3 frame. -/
theorem c5_estimator_ignores_enabled_flag_witness :
    touch_calibration_is_electrode_touched c5Cal sampleConfig (3 : Fin 12).val = false ∧
    totalMag c5Frame (fun i => i) = totalMag (zeroElectrode c5Frame (3 : Fin 12)) (fun i => i) +
      (if 0 < slotStrength c5Frame (fun i => i) (3 : Fin 12) then
        slotStrength c5Frame (fun i => i) (3 : Fin 12) else 0) :=
  c5_estimator_ignores_enabled_flag c5Cal sampleConfig 3 c5Frame rfl

end Izod
